import Mathlib

/-!
Verification development for the e2audiobook conversion pipeline.

Python text values are embedded as `List Char` (a Python `str` is a sequence
of characters); machine integers are `Nat`/`Int`; Python floats that only
ever hold exact small rationals (token estimates `len/3.5`, the TOC ratio)
are embedded as `ℚ`, which agrees with the float computation at every
comparison the code performs (all compared quantities are ≥ 1/7 apart,
far above double rounding error).  Fallible operations return `Except`.
-/

namespace Narrator

/-- Python `str.strip()` whitespace set restricted to ASCII: space, tab,
newline, carriage return, vertical tab, form feed. -/
def pyIsSpace (c : Char) : Bool :=
  c == ' ' || c == '\t' || c == '\n' || c == '\r' || c == Char.ofNat 11 || c == Char.ofNat 12

/-- ASCII word character, the `\w` class of Python `re` on ASCII text. -/
def isWordChar (c : Char) : Bool :=
  c.isAlpha || c.isDigit || c == '_'

/-- ASCII lower-casing, Python `str.lower()` on ASCII text. -/
def pyToLower (c : Char) : Char := c.toLower

/-- Python `s.strip()`: drop leading and trailing whitespace. -/
def pyStrip (l : List Char) : List Char :=
  ((l.dropWhile pyIsSpace).reverse.dropWhile pyIsSpace).reverse

/-- Python `s.split()` with no argument: maximal runs of non-whitespace. -/
def pyWords (l : List Char) : List (List Char) :=
  (l.splitOnP pyIsSpace).filter (· ≠ [])

/-- Python `" ".join(parts)`. -/
def joinSp : List (List Char) → List Char
  | [] => []
  | [x] => x
  | x :: y :: ys => x ++ ' ' :: joinSp (y :: ys)

/-- Total character count of a list of strings (no separators). -/
def charSum (l : List (List Char)) : ℕ := (l.map List.length).sum

end Narrator

namespace M4B

/-- Mirror of `ValidationResult` in `narrator/core/m4b_builder.py`. -/
structure ValidationResult where
  path : List Char
  size_bytes : ℕ
  duration_ms : ℤ
  actual_chapters : ℕ
  expected_chapters : ℕ
deriving DecidableEq

/-- The only error `M4BBuilder.validate` itself raises. -/
inductive M4BBuildError where
  | fileMissingOrEmpty
deriving DecidableEq

/-- Mirror of `M4BBuilder.validate` (m4b_builder.py lines 147-176).  The
filesystem and ffprobe results are inputs: `fileExists` is `p.exists()`,
`sizeBytes` is `p.stat().st_size`, `probedChapters` is the length of the
ffprobe chapter list, `durationMs` the probed duration.  The code raises
only when the file is missing or empty; it then builds and returns the
`ValidationResult` unconditionally (the chapter counts are logged, never
compared). -/
def validate (fileExists : Bool) (sizeBytes : ℕ) (probedChapters : ℕ)
    (durationMs : ℤ) (path : List Char) (expectedChapters : ℕ) :
    Except M4BBuildError ValidationResult :=
  if !fileExists || sizeBytes == 0 then
    .error .fileMissingOrEmpty
  else
    .ok ⟨path, sizeBytes, durationMs, probedChapters, expectedChapters⟩

/-- One `[CHAPTER]` block of the ffmetadata file written by `M4BBuilder.build`
(m4b_builder.py lines 99-108): `TIMEBASE=tbNum/tbDen`, `START=start`,
`END=stop`, `title=title`. -/
structure ChapterBlock where
  tbNum : ℕ
  tbDen : ℕ
  start : ℕ
  stop : ℕ
  title : List Char
deriving DecidableEq

/-- The chapter-block loop of `M4BBuilder.build`: `offset = 0;` then for each
chapter `(title, duration)` write a block with `START=offset`,
`END=offset+duration`, and set `offset = END`. -/
def chapterBlocksAux (offset : ℕ) : List (List Char × ℕ) → List ChapterBlock
  | [] => []
  | (t, d) :: rest => ⟨1, 1000, offset, offset + d, t⟩ :: chapterBlocksAux (offset + d) rest

/-- The `[CHAPTER]` blocks of the ffmetadata file, in order, for chapters
given as (title, probed duration in ms) pairs. -/
def chapterBlocks (chs : List (List Char × ℕ)) : List ChapterBlock :=
  chapterBlocksAux 0 chs

/-- Sum of the durations of the first `i` chapters. -/
def durPrefixSum (chs : List (List Char × ℕ)) (i : ℕ) : ℕ :=
  ((chs.map Prod.snd).take i).sum

end M4B

namespace TTS

open Narrator

/-- Python `str.rfind(pat)`: the greatest index at which `pat` occurs in `l`
(`none` for Python's `-1`). -/
def rfindSub (l pat : List Char) : Option ℕ :=
  ((List.range (l.length + 1)).filter (fun i => pat.isPrefixOf (l.drop i))).getLast?

/-- Python `int(limit * chars_per_token * 0.9)` of `_split_long_sentence`
(tts_client.py line 60).  For the default parameters the float product is
exactly 787.5, so truncation gives 787, the same as the exact rational. -/
def splitTarget (limit cpt : ℚ) : ℕ := ⌊limit * cpt * (9 / 10)⌋.toNat

/-- Third stage of the split-point search: the last `" "` if its index is
positive, else a hard cut at `target`. -/
def chooseSplitAtSpace (zone : List Char) (target : ℕ) : ℕ :=
  match rfindSub zone [' '] with
  | some i => if 0 < i then i else target
  | none => target

/-- Second stage: the last `", "` if its index is positive. -/
def chooseSplitAtComma (zone : List Char) (target : ℕ) : ℕ :=
  match rfindSub zone [',', ' '] with
  | some i => if 0 < i then i + 2 else chooseSplitAtSpace zone target
  | none => chooseSplitAtSpace zone target

/-- The split-point search of `_split_long_sentence` (lines 64-75): the last
`"; "`, then the last `", "` (each taken only when its index is positive,
skipping to the end of the delimiter), then the last `" "`, else `target`. -/
def chooseSplitAt (zone : List Char) (target : ℕ) : ℕ :=
  match rfindSub zone [';', ' '] with
  | some i => if 0 < i then i + 2 else chooseSplitAtComma zone target
  | none => chooseSplitAtComma zone target

/-- The while-loop of `_split_long_sentence` (lines 63-81) with explicit
fuel.  Every iteration removes at least `chooseSplitAt ≥ 1` characters when
`target ≥ 1`, so fuel `s.length` always suffices and the fuel-exhausted
branch (which returns the remaining sentence whole, where Python would spin)
is unreachable for the parameters used by the program. -/
def splitLongAux (limit cpt : ℚ) (target : ℕ) : ℕ → List Char → List (List Char)
  | 0, s =>
    if (s.length : ℚ) / cpt > limit then [s]
    else if s.isEmpty then [] else [s]
  | fuel + 1, s =>
    if (s.length : ℚ) / cpt > limit then
      let sa := chooseSplitAt (s.take target) target
      pyStrip (s.take sa) :: splitLongAux limit cpt target fuel (pyStrip (s.drop sa))
    else if s.isEmpty then [] else [s]

/-- Mirror of `_split_long_sentence` (tts_client.py lines 59-83). -/
def splitLongSentence (sentence : List Char) (limit cpt : ℚ) : List (List Char) :=
  splitLongAux limit cpt (splitTarget limit cpt) sentence.length sentence

/-- Loop state of `chunk_text`: emitted chunks, the accumulating chunk (a
list of sentences), and the running token estimate `current_tokens`. -/
structure ChunkState where
  chunks : List (List Char)
  cur : List (List Char)
  curTok : ℚ

/-- One iteration of the sentence loop of `chunk_text` (tts_client.py lines
30-46): oversized sentences flush the accumulator and are split; otherwise
the accumulator is flushed when adding would exceed `limit` and the
accumulator already holds at least `token_floor` estimated tokens. -/
def chunkStep (limit cpt : ℚ) (tokenFloor : ℕ) (st : ChunkState) (s : List Char) :
    ChunkState :=
  if (s.length : ℚ) / cpt > limit then
    { chunks := st.chunks ++ (if st.cur.isEmpty then [] else [joinSp st.cur])
        ++ splitLongSentence s limit cpt,
      cur := [], curTok := 0 }
  else if st.curTok + (s.length : ℚ) / cpt > limit ∧ (tokenFloor : ℚ) ≤ st.curTok then
    { chunks := st.chunks ++ [joinSp st.cur], cur := [s], curTok := (s.length : ℚ) / cpt }
  else
    { chunks := st.chunks, cur := st.cur ++ [s], curTok := st.curTok + (s.length : ℚ) / cpt }

/-- The tail handling of `chunk_text` (lines 48-54): a residual accumulator
below `token_floor` is merged into the previous chunk when one exists,
otherwise emitted as its own chunk. -/
def chunkFinish (cpt : ℚ) (tokenFloor : ℕ) (st : ChunkState) : List (List Char) :=
  if st.cur.isEmpty then st.chunks
  else if ¬st.chunks.isEmpty ∧ ((joinSp st.cur).length : ℚ) / cpt < (tokenFloor : ℚ) then
    st.chunks.dropLast ++ [st.chunks.getLastD [] ++ ' ' :: joinSp st.cur]
  else st.chunks ++ [joinSp st.cur]

/-- Mirror of `chunk_text` (tts_client.py lines 24-56).  The external
sentence tokenizer `nltk.sent_tokenize` is modelled by taking the sentence
list as the input; Python's float `current_tokens` is tracked exactly in ℚ
(every comparison the code makes is between rationals with denominator
dividing 7, at distance ≥ 1/7 when unequal, far beyond double rounding). -/
def chunk_text (sentences : List (List Char)) (limit : ℕ) (cpt : ℚ)
    (tokenFloor : ℕ) : List (List Char) :=
  chunkFinish cpt tokenFloor
    (sentences.foldl (chunkStep (limit : ℚ) cpt tokenFloor) ⟨[], [], 0⟩)

/-- The spec's estimated token count of a chunk: `len(chunk)/chars_per_token`. -/
def estTokens (cpt : ℚ) (l : List Char) : ℚ := (l.length : ℚ) / cpt

/-- Python `str.isupper()` on ASCII text: at least one letter and no
lowercase letter. -/
def pyIsUpper (l : List Char) : Bool :=
  l.any Char.isAlpha && l.all (fun c => !c.isLower)

/-- Scanner for Python `str.title()` on ASCII text: a letter is uppercased
after a non-letter and lowercased after a letter. -/
def pyTitlecaseAux : Bool → List Char → List Char
  | _, [] => []
  | prevAlpha, c :: rest =>
    if c.isAlpha then
      (if prevAlpha then c.toLower else c.toUpper) :: pyTitlecaseAux true rest
    else c :: pyTitlecaseAux false rest

/-- Python `str.title()` on ASCII text. -/
def pyTitlecase (l : List Char) : List Char := pyTitlecaseAux false l

/-- The spoken-title utterance of `synthesize_chapter` (tts_client.py line
166): `title.title()` when the title is all-caps, else the title itself. -/
def spokenTitle (title : List Char) : List Char :=
  if pyIsUpper title then pyTitlecase title else title

/-- The chunk list built by `synthesize_chapter` (lines 166-172): the spoken
title suffixed with a period, followed by the Chunker output. -/
def buildChunks (title : List Char) (sentences : List (List Char)) (limit : ℕ)
    (cpt : ℚ) (tokenFloor : ℕ) : List (List Char) :=
  (spokenTitle title ++ ['.']) :: chunk_text sentences limit cpt tokenFloor

/-- The error raised by `synthesize_chapter` when no audio segments were
produced (tts_client.py lines 187-188). -/
inductive TTSSynthesisError where
  | noSegments
deriving DecidableEq

/-- Success-path model of `TTSClient.synthesize_chapter` (lines 152-199):
`fs` is the filesystem (`output_path.exists()`), `req` the synthesis request
(every request succeeding; a failing request raises before the zero-segment
check is ever reached).  If the output exists the cached path is returned;
otherwise one segment is decoded per chunk and the `TTSSynthesisError`
branch fires exactly when the segment list is empty. -/
def synthesize_chapter {α : Type} (fs : List Char → Bool) (outputPath : List Char)
    (title : List Char) (sentences : List (List Char)) (limit : ℕ) (cpt : ℚ)
    (tokenFloor : ℕ) (req : List Char → α) : Except TTSSynthesisError (List Char) :=
  if fs outputPath then .ok outputPath
  else
    let segments := (buildChunks title sentences limit cpt tokenFloor).map req
    if segments.isEmpty then .error .noSegments else .ok outputPath

/-- Effectful model of `synthesize_chapter` for the idempotence claim:
returns the result path, the number of synthesis requests issued, and the
filesystem after the call (the export at line 194 creates `output_path`).
On the cached branch (lines 162-164) no request is issued and the
filesystem is untouched. -/
def synthesizeRun (fs : List Char → Bool) (outputPath title : List Char)
    (sentences : List (List Char)) (limit : ℕ) (cpt : ℚ) (tokenFloor : ℕ) :
    List Char × ℕ × (List Char → Bool) :=
  if fs outputPath then (outputPath, 0, fs)
  else (outputPath, (buildChunks title sentences limit cpt tokenFloor).length,
    fun p => if p = outputPath then true else fs p)

/-- Loop invariant of `chunk_text`: emitted chunks are bounded by
`2·limit·cpt + 2·floor·cpt` characters, the accumulator holds at most
`limit·cpt + floor·cpt` characters, `current_tokens` is exactly the
accumulator's character count over `cpt`, and accumulated sentences are
nonempty. -/
def ChunkInv (limit cpt : ℚ) (tokenFloor : ℕ) (st : ChunkState) : Prop :=
  (∀ c ∈ st.chunks,
      (c.length : ℚ) ≤ 2 * (limit * cpt) + 2 * ((tokenFloor : ℚ) * cpt)) ∧
  (charSum st.cur : ℚ) ≤ limit * cpt + (tokenFloor : ℚ) * cpt ∧
  st.curTok = (charSum st.cur : ℚ) / cpt ∧
  ∀ x ∈ st.cur, x ≠ []

/-- Loop invariant for the floor guarantee, valid when no sentence estimate
exceeds `limit`: every emitted chunk (not just non-final ones) has estimate
at least `token_floor`, and `current_tokens` tracks the accumulator. -/
def ChunkFloorInv (cpt : ℚ) (tokenFloor : ℕ) (st : ChunkState) : Prop :=
  (∀ c ∈ st.chunks, (tokenFloor : ℚ) ≤ estTokens cpt c) ∧
  st.curTok = (charSum st.cur : ℚ) / cpt

end TTS

namespace Epub

open Narrator

/-- Scanner for Python `re.finditer` with the word pattern (maximal runs of
`\w` characters), annotated with start positions; `re.findall` is the same
list without positions.  The scanner consumes one character at a time; the
third argument holds the start position and the reversed characters of the
token being read. -/
def wordTokensGo : List Char → ℕ → Option (ℕ × List Char) → List (ℕ × List Char)
  | [], _, none => []
  | [], _, some (st, acc) => [(st, acc.reverse)]
  | c :: rest, i, none =>
    if isWordChar c then wordTokensGo rest (i + 1) (some (i, [c]))
    else wordTokensGo rest (i + 1) none
  | c :: rest, i, some (st, acc) =>
    if isWordChar c then wordTokensGo rest (i + 1) (some (st, c :: acc))
    else (st, acc.reverse) :: wordTokensGo rest (i + 1) none

/-- All word tokens of `l` with their start positions, in order. -/
def wordTokens (l : List Char) : List (ℕ × List Char) := wordTokensGo l 0 none

/-- A position-annotated token lowered, Python `match.group().lower()`. -/
def lowerTok (m : ℕ × List Char) : List Char := m.2.map pyToLower

/-- Python `match.end()`: one past the last character of the token. -/
def tokenEnd (m : ℕ × List Char) : ℕ := m.1 + m.2.length

/-- Python `re.findall(r"\w+", title.lower())` of `_strip_title_from_text`
(epub_extractor.py line 386). -/
def titleWords (title : List Char) : List (List Char) :=
  (wordTokens (title.map pyToLower)).map Prod.snd

/-- The word tokens of the search region `text[: len(title) * 3]`
(epub_extractor.py lines 389-390). -/
def regionMatches (title text : List Char) : List (ℕ × List Char) :=
  wordTokens (text.take (3 * title.length))

/-- The match condition of `_strip_title_from_text` (lines 391-393): at
least `len(title_words)` word tokens in the region and the first
`len(title_words)` of them equal the title's words case-insensitively. -/
def titleOpeningMatches (title text : List Char) : Bool :=
  decide ((titleWords title).length ≤ (regionMatches title text).length) &&
  decide (((regionMatches title text).take (titleWords title).length).map lowerTok =
    titleWords title)

/-- Python `text_matches[len(title_words) - 1].end()` (line 394). -/
def titleMatchEnd (title text : List Char) : ℕ :=
  tokenEnd (((regionMatches title text).take (titleWords title).length).getLastD (0, []))

/-- Mirror of `_strip_title_from_text` (epub_extractor.py lines 385-396).
Note the positive branch applies Python `str.strip()`, which removes
whitespace from both ends of the remaining body. -/
def strip_title_from_text (title text : List Char) : List Char :=
  if (titleWords title).isEmpty then text
  else if titleOpeningMatches title text then
    pyStrip (text.drop (titleMatchEnd title text))
  else text

/-- Constant `MIN_CHAPTER_WORDS` (epub_extractor.py line 17). -/
def MIN_CHAPTER_WORDS : ℕ := 50

/-- Mirror of the `Chapter` dataclass (title, text, word count). -/
structure Chapter where
  title : List Char
  text : List Char
  word_count : ℕ
deriving DecidableEq

/-- The post-filter loop of `extract` (epub_extractor.py lines 87-96): strip
the title from the body, drop chapters under `MIN_CHAPTER_WORDS`, drop
skippable chapters, keep the rest in order.  The skip predicate
(`_is_skippable`, built from the configured title/front-matter regexes and
`_looks_like_toc`) is a parameter: the claims proved about this stage hold
for every such predicate. -/
def postFilter (skippable : List Char → List Char → Bool)
    (detected : List (List Char × List Char)) : List Chapter :=
  detected.filterMap fun p =>
    if (pyWords (strip_title_from_text p.1 p.2)).length < MIN_CHAPTER_WORDS then none
    else if skippable p.1 (strip_title_from_text p.1 p.2) then none
    else some ⟨p.1, strip_title_from_text p.1 p.2,
      (pyWords (strip_title_from_text p.1 p.2)).length⟩

/-- Error `EpubExtractionError` as raised at epub_extractor.py line 99. -/
inductive EpubExtractionError where
  | noChapters
deriving DecidableEq

/-- The tail of `extract` (lines 87-105): run the post-filter over the
detected chapters (output of the four-strategy cascade) and fail when
nothing survives. -/
def extractFilter (skippable : List Char → List Char → Bool)
    (detected : List (List Char × List Char)) :
    Except EpubExtractionError (List Chapter) :=
  if (postFilter skippable detected).isEmpty then .error .noChapters
  else .ok (postFilter skippable detected)

/-- The alternation of the chapter-like line pattern of `_looks_like_toc`
(epub_extractor.py line 415). -/
def chapterKeywords : List (List Char) :=
  ["chapter", "part", "section", "appendix", "introduction", "foreword",
    "preface", "prologue", "epilogue"].map String.toList

/-- Python `re.match(r"^(chapter|...)\b", line, re.IGNORECASE)`: the line starts
with one of the keywords, case-insensitively, followed by a non-word
character or the end of the line. -/
def kwLineMatch (line : List Char) : Bool :=
  chapterKeywords.any fun kw =>
    kw.isPrefixOf (line.map pyToLower) &&
      (match (line.map pyToLower).drop kw.length with
        | [] => true
        | c :: _ => !isWordChar c)

/-- Python `re.match` with the number pattern of line 419: one or more
digits, then a period or closing parenthesis, then a whitespace character. -/
def numLineMatch (line : List Char) : Bool :=
  !(line.takeWhile Char.isDigit).isEmpty &&
  (match line.drop (line.takeWhile Char.isDigit).length with
    | c :: d :: _ => (c == '.' || c == ')') && pyIsSpace d
    | _ => false)

/-- Python `[line.strip() for line in text.strip().split("\n") if line.strip()]`
(epub_extractor.py line 408). -/
def tocLines (text : List Char) : List (List Char) :=
  (((pyStrip text).splitOn '\n').map pyStrip).filter (fun l => !l.isEmpty)

/-- The count of chapter-like lines (lines 411-420). -/
def chapterLikeCount (text : List Char) : ℕ :=
  ((tocLines text).filter (fun l => kwLineMatch l || numLineMatch l)).length

/-- Mirror of `_looks_like_toc` (epub_extractor.py lines 407-421).  The
Python comparison `chapter_like / len(lines) > 0.3` divides two small ints
in double precision and compares against the double nearest 0.3 (slightly
below 3/10); for any line count below 2^50 this agrees with the exact
rational comparison against 3/10, including ties, which round to that same
double.  `_is_skippable` (line 404) drops a chapter as TOC-like exactly
when this returns true. -/
def looks_like_toc (text : List Char) : Bool :=
  if (tocLines text).length < 5 then false
  else decide (4 ≤ chapterLikeCount text ∧
    (chapterLikeCount text : ℚ) / ((tocLines text).length : ℚ) > 3 / 10)

end Epub

namespace Queue

/-- Mirror of `JobStatus` (db/models.py). -/
inductive JobStatus where
  | pending
  | extracting
  | synthesizing
  | building
  | complete
  | failed
deriving DecidableEq

/-- Mirror of the `Job` record restricted to the columns touched by
`cancel_job` and `retry_job`; timestamps are abstracted to naturals. -/
structure Job where
  id : ℕ
  status : JobStatus
  chapters_total : ℕ
  chapters_done : ℕ
  error_message : Option (List Char)
  queue_position : Option ℕ
  started_at : Option ℕ
  completed_at : Option ℕ
deriving DecidableEq

/-- Errors of the queue operations: `get_job` raises `ValueError` when the
id is unknown, `retry_job` when the job is not failed. -/
inductive JobQueueError where
  | notFound
  | notFailed
deriving DecidableEq

/-- The terminal statuses checked by `cancel_job` (job_queue.py line 98). -/
def isTerminal (s : JobStatus) : Bool := s == .complete || s == .failed

/-- Mirror of `JobQueue.get_job` (job_queue.py lines 53-57). -/
def get_job (db : List Job) (id : ℕ) : Except JobQueueError Job :=
  match db.find? (fun j => j.id == id) with
  | some j => .ok j
  | none => .error .notFound

/-- The error message set by `cancel_job`. -/
def cancelledMsg : List Char := "Cancelled by user".toList

/-- The row update performed by `cancel_job` (job_queue.py lines 100-103). -/
def cancelUpd (now : ℕ) (j : Job) : Job :=
  { j with
    status := .failed,
    error_message := some cancelledMsg,
    completed_at := some now }

/-- Mirror of `JobQueue.cancel_job` (job_queue.py lines 96-105): no-op on
terminal jobs, otherwise an SQL `UPDATE` of status, error message and
completion time for the row with this id. -/
def cancel_job (db : List Job) (id now : ℕ) : Except JobQueueError (List Job) :=
  match db.find? (fun j => j.id == id) with
  | none => .error .notFound
  | some j =>
    if isTerminal j.status then .ok db
    else .ok (db.map fun j' => if j'.id == id then cancelUpd now j' else j')

/-- The SQL aggregate COALESCE of the maximum pending queue position with
0 (job_queue.py lines 111-113): the maximum non-null queue position among
pending jobs, or 0 when there is none. -/
def maxPendingPos (db : List Job) : ℕ :=
  ((db.filter (fun j => j.status == .pending)).filterMap
    (fun j => j.queue_position)).foldl max 0

/-- The row update performed by `retry_job` (job_queue.py lines 114-118). -/
def retryUpd (pos : ℕ) (j : Job) : Job :=
  { j with
    status := .pending,
    error_message := none,
    started_at := none,
    completed_at := none,
    chapters_done := 0,
    queue_position := some pos }

/-- Mirror of `JobQueue.retry_job` (job_queue.py lines 107-121): only
allowed on failed jobs; resets the row to pending, clears error and
timestamps, zeroes progress and appends to the pending queue. -/
def retry_job (db : List Job) (id : ℕ) : Except JobQueueError (List Job) :=
  match db.find? (fun j => j.id == id) with
  | none => .error .notFound
  | some j =>
    if j.status != .failed then .error .notFailed
    else .ok (db.map fun j' =>
      if j'.id == id then retryUpd (maxPendingPos db + 1) j' else j')

end Queue

/-- A 50-word body used to instantiate the post-filter theorems. -/
def fiftyWords : List Char := Narrator.joinSp (List.replicate 50 ['a'])

/-- A 20-line body, 6 of whose lines are chapter-like (ratio exactly 3/10). -/
def tocExample : List Char :=
  String.toList (String.intercalate "\n"
    (List.replicate 6 "chapter 1" ++ List.replicate 14 "x"))

/-- A 20-line body, 7 of whose lines are chapter-like (ratio 0.35). -/
def tocExampleDropped : List Char :=
  String.toList (String.intercalate "\n"
    (List.replicate 7 "chapter 1" ++ List.replicate 13 "x"))

/-- An in-flight job used to instantiate the cancel/retry theorem. -/
def exJobA : Queue.Job := ⟨1, .extracting, 5, 2, none, none, some 10, none⟩

/-- A pending job at queue position 4, sharing the queue with `exJobA`. -/
def exJobB : Queue.Job := ⟨2, .pending, 0, 0, none, some 4, none, none⟩

namespace Narrator

theorem joinSp_length_ge (l : List (List Char)) : charSum l ≤ (joinSp l).length := by
  match l with
  | [] => simp [joinSp, charSum]
  | [x] => simp [joinSp, charSum]
  | x :: y :: ys =>
    have ih := joinSp_length_ge (y :: ys)
    simp only [joinSp, charSum, List.map_cons, List.sum_cons, List.length_append,
      List.length_cons] at *
    omega

theorem joinSp_length_le (l : List (List Char)) (h : ∀ x ∈ l, x ≠ []) :
    (joinSp l).length ≤ 2 * charSum l := by
  match l with
  | [] => simp [joinSp, charSum]
  | [x] => simp [joinSp, charSum]; omega
  | x :: y :: ys =>
    have ih := joinSp_length_le (y :: ys) (fun z hz => h z (List.mem_cons_of_mem _ hz))
    have hx : x ≠ [] := h x (List.mem_cons_self _ _)
    have hx1 : 1 ≤ x.length := by
      cases x with
      | nil => exact absurd rfl hx
      | cons a as => simp
    simp only [joinSp, charSum, List.map_cons, List.sum_cons, List.length_append,
      List.length_cons] at *
    omega

theorem length_dropWhile_le' (p : Char → Bool) (l : List Char) :
    (l.dropWhile p).length ≤ l.length := by
  induction l with
  | nil => simp
  | cons a as ih =>
    by_cases h : p a
    · simp [List.dropWhile_cons, h]
      omega
    · simp [List.dropWhile_cons, h]

theorem pyStrip_length_le (l : List Char) : (pyStrip l).length ≤ l.length := by
  unfold pyStrip
  have h1 := length_dropWhile_le' pyIsSpace l
  have h2 := length_dropWhile_le' pyIsSpace (l.dropWhile pyIsSpace).reverse
  simp only [List.length_reverse] at *
  omega

end Narrator

namespace M4B

theorem chapterBlocksAux_get? (off : ℕ) (chs : List (List Char × ℕ)) (i : ℕ)
    (t : List Char) (d : ℕ) (h : chs[i]? = some (t, d)) :
    (chapterBlocksAux off chs)[i]? =
      some ⟨1, 1000, off + durPrefixSum chs i, off + durPrefixSum chs i + d, t⟩ := by
  induction chs generalizing off i with
  | nil => simp at h
  | cons hd tl ih =>
    cases i with
    | zero =>
      simp only [List.getElem?_cons_zero, Option.some.injEq] at h
      subst h
      simp [chapterBlocksAux, durPrefixSum]
    | succ n =>
      simp only [List.getElem?_cons_succ] at h
      have := ih (off + hd.2) n h
      simp only [chapterBlocksAux, List.getElem?_cons_succ]
      rw [show chapterBlocksAux (off + hd.2) tl = chapterBlocksAux (off + hd.2) tl from rfl]
      cases hd with
      | mk ht hd2 =>
        simp only [chapterBlocksAux] at *
        rw [this]
        simp only [durPrefixSum, List.map_cons, List.take_succ_cons, List.sum_cons]
        congr 2 <;> omega

theorem chapterBlocksAux_last (off : ℕ) (chs : List (List Char × ℕ)) (h : chs ≠ []) :
    (chapterBlocksAux off chs).getLast?.map ChapterBlock.stop =
      some (off + (chs.map Prod.snd).sum) := by
  induction chs generalizing off with
  | nil => exact absurd rfl h
  | cons hd tl ih =>
    cases tl with
    | nil => simp [chapterBlocksAux]
    | cons hd2 tl2 =>
      have ih' := ih (off + hd.2) (by simp)
      rw [show chapterBlocksAux off (hd :: hd2 :: tl2) =
        ⟨1, 1000, off, off + hd.2, hd.1⟩ ::
          ⟨1, 1000, off + hd.2, off + hd.2 + hd2.2, hd2.1⟩ ::
            chapterBlocksAux (off + hd.2 + hd2.2) tl2 from rfl]
      rw [List.getLast?_cons_cons]
      rw [show (⟨1, 1000, off + hd.2, off + hd.2 + hd2.2, hd2.1⟩ ::
            chapterBlocksAux (off + hd.2 + hd2.2) tl2 : List ChapterBlock) =
          chapterBlocksAux (off + hd.2) (hd2 :: tl2) from rfl]
      rw [ih']
      simp only [List.map_cons, List.sum_cons, Option.some.injEq]
      omega

end M4B

namespace TTS

open Narrator

theorem mem_of_getLastQ {α : Type} (l : List α) (a : α) (h : l.getLast? = some a) :
    a ∈ l := by
  rcases List.mem_getLast?_eq_getLast (Option.mem_def.mpr h) with ⟨hne, rfl⟩
  exact List.getLast_mem hne

theorem isPrefixOf_length_le (l1 l2 : List Char) (h : l1.isPrefixOf l2 = true) :
    l1.length ≤ l2.length := by
  induction l1 generalizing l2 with
  | nil => simp
  | cons a as ih =>
    cases l2 with
    | nil => simp [List.isPrefixOf] at h
    | cons b bs =>
      simp only [List.isPrefixOf, Bool.and_eq_true] at h
      have := ih bs h.2
      simp only [List.length_cons]
      omega

theorem rfindSub_some (l pat : List Char) (i : ℕ) (h : rfindSub l pat = some i) :
    i + pat.length ≤ l.length := by
  have hmem : i ∈ (List.range (l.length + 1)).filter
      (fun i => pat.isPrefixOf (l.drop i)) := mem_of_getLastQ _ _ h
  rw [List.mem_filter] at hmem
  have hlen : pat.length ≤ (l.drop i).length :=
    isPrefixOf_length_le pat (l.drop i) hmem.2
  have hrange : i < l.length + 1 := List.mem_range.mp hmem.1
  rw [List.length_drop] at hlen
  omega

theorem chooseSplitAtSpace_le (zone : List Char) (target : ℕ) (h : zone.length ≤ target) :
    chooseSplitAtSpace zone target ≤ target := by
  unfold chooseSplitAtSpace
  cases hr : rfindSub zone [' '] with
  | none => simp
  | some i =>
    have := rfindSub_some zone [' '] i hr
    simp only [List.length_cons, List.length_nil] at this
    by_cases hi : 0 < i <;> simp [hi] <;> omega

theorem chooseSplitAtComma_le (zone : List Char) (target : ℕ) (h : zone.length ≤ target) :
    chooseSplitAtComma zone target ≤ target := by
  unfold chooseSplitAtComma
  cases hr : rfindSub zone [',', ' '] with
  | none => exact chooseSplitAtSpace_le zone target h
  | some i =>
    have := rfindSub_some zone [',', ' '] i hr
    simp only [List.length_cons, List.length_nil] at this
    by_cases hi : 0 < i
    · simp only [hi, if_true]; omega
    · simp only [hi, if_false]; exact chooseSplitAtSpace_le zone target h

theorem chooseSplitAt_le (zone : List Char) (target : ℕ) (h : zone.length ≤ target) :
    chooseSplitAt zone target ≤ target := by
  unfold chooseSplitAt
  cases hr : rfindSub zone [';', ' '] with
  | none => exact chooseSplitAtComma_le zone target h
  | some i =>
    have := rfindSub_some zone [';', ' '] i hr
    simp only [List.length_cons, List.length_nil] at this
    by_cases hi : 0 < i
    · simp only [hi, if_true]; omega
    · simp only [hi, if_false]; exact chooseSplitAtComma_le zone target h

theorem chooseSplitAtSpace_pos (zone : List Char) (target : ℕ) (h : 1 ≤ target) :
    1 ≤ chooseSplitAtSpace zone target := by
  unfold chooseSplitAtSpace
  cases rfindSub zone [' '] with
  | none => simpa
  | some i => by_cases hi : 0 < i <;> simp [hi] <;> omega

theorem chooseSplitAtComma_pos (zone : List Char) (target : ℕ) (h : 1 ≤ target) :
    1 ≤ chooseSplitAtComma zone target := by
  unfold chooseSplitAtComma
  cases rfindSub zone [',', ' '] with
  | none => exact chooseSplitAtSpace_pos zone target h
  | some i =>
    by_cases hi : 0 < i
    · simp [hi]
    · simp only [hi, if_false]; exact chooseSplitAtSpace_pos zone target h

theorem chooseSplitAt_pos (zone : List Char) (target : ℕ) (h : 1 ≤ target) :
    1 ≤ chooseSplitAt zone target := by
  unfold chooseSplitAt
  cases rfindSub zone [';', ' '] with
  | none => exact chooseSplitAtComma_pos zone target h
  | some i =>
    by_cases hi : 0 < i
    · simp [hi]
    · simp only [hi, if_false]; exact chooseSplitAtComma_pos zone target h

theorem splitLongAux_bound (limit cpt : ℚ) (target : ℕ) (hcpt : 0 < cpt)
    (hlim : 0 ≤ limit) (htar : 1 ≤ target) (htarcap : (target : ℚ) ≤ limit * cpt) :
    ∀ fuel : ℕ, ∀ s : List Char, s.length ≤ fuel →
      ∀ p ∈ splitLongAux limit cpt target fuel s, (p.length : ℚ) ≤ limit * cpt := by
  intro fuel
  induction fuel with
  | zero =>
    intro s hs p hp
    have hnil : s = [] := List.length_eq_zero.mp (Nat.le_zero.mp hs)
    subst hnil
    have hneg : ¬ ((([] : List Char).length : ℚ) / cpt > limit) := by
      simpa using not_lt_of_le hlim
    rw [splitLongAux, if_neg hneg] at hp
    simp at hp
  | succ fuel ih =>
    intro s hs p hp
    by_cases hbig : (s.length : ℚ) / cpt > limit
    · rw [splitLongAux, if_pos hbig] at hp
      rcases List.mem_cons.mp hp with hhead | htail
      · subst hhead
        have h1 : (pyStrip (s.take (chooseSplitAt (s.take target) target))).length ≤
            chooseSplitAt (s.take target) target := by
          calc (pyStrip (s.take (chooseSplitAt (s.take target) target))).length
              ≤ (s.take (chooseSplitAt (s.take target) target)).length :=
                Narrator.pyStrip_length_le _
            _ ≤ chooseSplitAt (s.take target) target := by
                rw [List.length_take]; omega
        have h2 : chooseSplitAt (s.take target) target ≤ target :=
          chooseSplitAt_le _ _ (by rw [List.length_take]; omega)
        calc ((pyStrip (s.take (chooseSplitAt (s.take target) target))).length : ℚ)
            ≤ (target : ℚ) := by exact_mod_cast le_trans h1 h2
          _ ≤ limit * cpt := htarcap
      · refine ih (pyStrip (s.drop (chooseSplitAt (s.take target) target))) ?_ p htail
        have hpos : 1 ≤ chooseSplitAt (s.take target) target :=
          chooseSplitAt_pos _ _ htar
        have hs1 : 1 ≤ s.length := by
          rcases Nat.eq_zero_or_pos s.length with h0 | h0
          · rw [h0] at hbig
            simp at hbig
            exact absurd hbig (not_lt_of_le hlim)
          · exact h0
        have := Narrator.pyStrip_length_le (s.drop (chooseSplitAt (s.take target) target))
        rw [List.length_drop] at this
        omega
    · rw [splitLongAux, if_neg hbig] at hp
      by_cases hemp : s.isEmpty
      · rw [if_pos hemp] at hp
        exact absurd hp (List.not_mem_nil p)
      · rw [if_neg hemp] at hp
        rcases List.mem_cons.mp hp with rfl | hf
        · push_neg at hbig
          exact (div_le_iff₀ hcpt).mp hbig
        · exact absurd hf (List.not_mem_nil p)

theorem splitTarget_cast_le (limit cpt : ℚ) (h : 0 ≤ limit * cpt) :
    ((splitTarget limit cpt : ℕ) : ℚ) ≤ limit * cpt := by
  unfold splitTarget
  rcases le_or_lt 0 ⌊limit * cpt * (9 / 10)⌋ with h1 | h1
  · have h2 : ((⌊limit * cpt * (9 / 10)⌋.toNat : ℤ) : ℚ) ≤ limit * cpt := by
      rw [Int.toNat_of_nonneg h1]
      calc ((⌊limit * cpt * (9 / 10)⌋ : ℤ) : ℚ) ≤ limit * cpt * (9 / 10) :=
            Int.floor_le _
        _ ≤ limit * cpt := by nlinarith
    exact_mod_cast h2
  · have h2 : ⌊limit * cpt * (9 / 10)⌋.toNat = 0 := Int.toNat_of_nonpos h1.le
    rw [h2]
    exact_mod_cast h

theorem splitLongAux_ne_nil (limit cpt : ℚ) (target fuel : ℕ) (s : List Char)
    (h : (s.length : ℚ) / cpt > limit) :
    splitLongAux limit cpt target fuel s ≠ [] := by
  cases fuel with
  | zero =>
    rw [splitLongAux, if_pos h]
    simp
  | succ fuel =>
    rw [splitLongAux, if_pos h]
    simp

theorem splitLongSentence_ne_nil (s : List Char) (limit cpt : ℚ)
    (h : (s.length : ℚ) / cpt > limit) :
    splitLongSentence s limit cpt ≠ [] :=
  splitLongAux_ne_nil limit cpt (splitTarget limit cpt) s.length s h

theorem splitLongSentence_bound (s : List Char) (limit cpt : ℚ) (hcpt : 0 < cpt)
    (hlim : 0 ≤ limit) (htar : 1 ≤ splitTarget limit cpt) :
    ∀ p ∈ splitLongSentence s limit cpt, (p.length : ℚ) ≤ limit * cpt := by
  refine splitLongAux_bound limit cpt (splitTarget limit cpt) hcpt hlim htar ?_
    s.length s le_rfl
  exact splitTarget_cast_le limit cpt (mul_nonneg hlim hcpt.le)

theorem joinSp_cast_le (cur : List (List Char)) (hne : ∀ x ∈ cur, x ≠ []) :
    ((joinSp cur).length : ℚ) ≤ 2 * (charSum cur : ℚ) := by
  have h := joinSp_length_le cur hne
  exact_mod_cast h

theorem chunkStep_inv (limit cpt : ℚ) (tokenFloor : ℕ) (hcpt : 0 < cpt)
    (hlim : 0 ≤ limit) (htar : 1 ≤ splitTarget limit cpt)
    (st : ChunkState) (s : List Char) (hs : s ≠ [])
    (hinv : ChunkInv limit cpt tokenFloor st) :
    ChunkInv limit cpt tokenFloor (chunkStep limit cpt tokenFloor st s) := by
  obtain ⟨hchunks, hcur, hlink, hne⟩ := hinv
  have hcap : (0 : ℚ) ≤ limit * cpt := mul_nonneg hlim hcpt.le
  have hflc : (0 : ℚ) ≤ (tokenFloor : ℚ) * cpt :=
    mul_nonneg (Nat.cast_nonneg _) hcpt.le
  unfold chunkStep
  by_cases hbig : (s.length : ℚ) / cpt > limit
  · rw [if_pos hbig]
    refine ⟨?_, ?_, ?_, ?_⟩
    · intro c hc
      simp only [List.mem_append] at hc
      rcases hc with (hc | hc) | hc
      · exact hchunks c hc
      · by_cases hemp : st.cur.isEmpty
        · rw [if_pos hemp] at hc
          simp at hc
        · rw [if_neg hemp] at hc
          simp only [List.mem_singleton] at hc
          subst hc
          have h1 := joinSp_cast_le st.cur hne
          linarith
      · have h1 := splitLongSentence_bound s limit cpt hcpt hlim htar c hc
        linarith
    · simpa [charSum] using add_nonneg hcap hflc
    · simp [charSum]
    · simp
  · rw [if_neg hbig]
    push_neg at hbig
    have hslen : (s.length : ℚ) ≤ limit * cpt := (div_le_iff₀ hcpt).mp hbig
    by_cases hflush : st.curTok + (s.length : ℚ) / cpt > limit ∧
        (tokenFloor : ℚ) ≤ st.curTok
    · rw [if_pos hflush]
      refine ⟨?_, ?_, ?_, ?_⟩
      · intro c hc
        rcases List.mem_append.mp hc with hc | hc
        · exact hchunks c hc
        · simp only [List.mem_singleton] at hc
          subst hc
          have h1 := joinSp_cast_le st.cur hne
          linarith
      · simp only [charSum, List.map_cons, List.map_nil, List.sum_cons, List.sum_nil]
        push_cast
        linarith
      · simp [charSum]
      · intro x hx
        simp only [List.mem_singleton] at hx
        subst hx
        exact hs
    · rw [if_neg hflush]
      have hsum : (charSum (st.cur ++ [s]) : ℚ) = (charSum st.cur : ℚ) + s.length := by
        simp [charSum]
      refine ⟨hchunks, ?_, ?_, ?_⟩
      · rw [hsum]
        rcases not_and_or.mp hflush with h1 | h1
        · push_neg at h1
          rw [hlink] at h1
          rw [div_add_div_same] at h1
          have h2 : (charSum st.cur : ℚ) + s.length ≤ limit * cpt := by
            have := (div_le_iff₀ hcpt).mp h1
            linarith
          linarith
        · push_neg at h1
          rw [hlink] at h1
          have h2 : (charSum st.cur : ℚ) < (tokenFloor : ℚ) * cpt :=
            (div_lt_iff₀ hcpt).mp h1
          linarith
      · rw [hsum, hlink, div_add_div_same]
      · intro x hx
        rcases List.mem_append.mp hx with hx | hx
        · exact hne x hx
        · simp only [List.mem_singleton] at hx
          subst hx
          exact hs

theorem chunkFold_inv (limit cpt : ℚ) (tokenFloor : ℕ) (hcpt : 0 < cpt)
    (hlim : 0 ≤ limit) (htar : 1 ≤ splitTarget limit cpt)
    (sentences : List (List Char)) (st : ChunkState)
    (hne : ∀ s ∈ sentences, s ≠ []) (hinv : ChunkInv limit cpt tokenFloor st) :
    ChunkInv limit cpt tokenFloor
      (sentences.foldl (chunkStep limit cpt tokenFloor) st) := by
  induction sentences generalizing st with
  | nil => simpa
  | cons s rest ih =>
    rw [List.foldl_cons]
    exact ih _ (fun x hx => hne x (List.mem_cons_of_mem _ hx))
      (chunkStep_inv limit cpt tokenFloor hcpt hlim htar st s
        (hne s (List.mem_cons_self _ _)) hinv)

theorem getLastD_mem_of_ne_nil {α : Type} (l : List α) (d : α) (h : l ≠ []) :
    l.getLastD d ∈ l := by
  rw [List.getLastD_eq_getLast?, List.getLast?_eq_getLast_of_ne_nil h]
  exact List.getLast_mem h

theorem chunkFinish_bound (limit cpt : ℚ) (tokenFloor : ℕ) (hcpt : 0 < cpt)
    (hlim : 0 ≤ limit) (st : ChunkState)
    (hinv : ChunkInv limit cpt tokenFloor st) :
    ∀ c ∈ chunkFinish cpt tokenFloor st,
      (c.length : ℚ) ≤ 2 * (limit * cpt) + 3 * ((tokenFloor : ℚ) * cpt) + 1 := by
  obtain ⟨hchunks, hcur, _, hne⟩ := hinv
  have hflc : (0 : ℚ) ≤ (tokenFloor : ℚ) * cpt :=
    mul_nonneg (Nat.cast_nonneg _) hcpt.le
  intro c hc
  unfold chunkFinish at hc
  by_cases hemp : st.cur.isEmpty
  · rw [if_pos hemp] at hc
    have := hchunks c hc
    linarith
  · rw [if_neg hemp] at hc
    have hjoin : ((joinSp st.cur).length : ℚ) ≤ 2 * (charSum st.cur : ℚ) :=
      joinSp_cast_le st.cur hne
    by_cases hmerge : ¬st.chunks.isEmpty ∧
        ((joinSp st.cur).length : ℚ) / cpt < (tokenFloor : ℚ)
    · rw [if_pos hmerge] at hc
      rcases List.mem_append.mp hc with hc | hc
      · have hsub : c ∈ st.chunks := (List.dropLast_sublist st.chunks).subset hc
        have := hchunks c hsub
        linarith
      · simp only [List.mem_singleton] at hc
        subst hc
        have hlast : st.chunks.getLastD [] ∈ st.chunks :=
          getLastD_mem_of_ne_nil _ _ (by
            intro hnil
            exact hmerge.1 (by simp [hnil]))
        have h1 := hchunks _ hlast
        have h2 : ((joinSp st.cur).length : ℚ) < (tokenFloor : ℚ) * cpt :=
          (div_lt_iff₀ hcpt).mp hmerge.2
        have h3 : ((st.chunks.getLastD [] ++ ' ' :: joinSp st.cur).length : ℚ) =
            (st.chunks.getLastD []).length + 1 + (joinSp st.cur).length := by
          push_cast [List.length_append, List.length_cons]
          ring
        rw [h3]
        linarith
    · rw [if_neg hmerge] at hc
      rcases List.mem_append.mp hc with hc | hc
      · have := hchunks c hc
        linarith
      · simp only [List.mem_singleton] at hc
        subst hc
        linarith

theorem chunkStep_floor_inv (limit cpt : ℚ) (tokenFloor : ℕ) (hcpt : 0 < cpt)
    (st : ChunkState) (s : List Char)
    (hsmall : ¬((s.length : ℚ) / cpt > limit))
    (hinv : ChunkFloorInv cpt tokenFloor st) :
    ChunkFloorInv cpt tokenFloor (chunkStep limit cpt tokenFloor st s) := by
  obtain ⟨hchunks, hlink⟩ := hinv
  unfold chunkStep
  rw [if_neg hsmall]
  by_cases hflush : st.curTok + (s.length : ℚ) / cpt > limit ∧
      (tokenFloor : ℚ) ≤ st.curTok
  · rw [if_pos hflush]
    constructor
    · intro c hc
      rcases List.mem_append.mp hc with hc | hc
      · exact hchunks c hc
      · simp only [List.mem_singleton] at hc
        subst hc
        have h1 : (charSum st.cur : ℚ) ≤ ((joinSp st.cur).length : ℚ) := by
          exact_mod_cast joinSp_length_ge st.cur
        have h2 : (charSum st.cur : ℚ) / cpt ≤ ((joinSp st.cur).length : ℚ) / cpt :=
          (div_le_div_iff_of_pos_right hcpt).mpr h1
        rw [hlink] at hflush
        unfold estTokens
        linarith [hflush.2]
    · simp [charSum]
  · rw [if_neg hflush]
    refine ⟨hchunks, ?_⟩
    have hsum : (charSum (st.cur ++ [s]) : ℚ) = (charSum st.cur : ℚ) + s.length := by
      simp [charSum]
    rw [hsum, hlink, div_add_div_same]

theorem chunkFold_floor_inv (limit cpt : ℚ) (tokenFloor : ℕ) (hcpt : 0 < cpt)
    (sentences : List (List Char)) (st : ChunkState)
    (hsmall : ∀ s ∈ sentences, ¬((s.length : ℚ) / cpt > limit))
    (hinv : ChunkFloorInv cpt tokenFloor st) :
    ChunkFloorInv cpt tokenFloor
      (sentences.foldl (chunkStep limit cpt tokenFloor) st) := by
  induction sentences generalizing st with
  | nil => simpa
  | cons s rest ih =>
    rw [List.foldl_cons]
    exact ih _ (fun x hx => hsmall x (List.mem_cons_of_mem _ hx))
      (chunkStep_floor_inv limit cpt tokenFloor hcpt st s
        (hsmall s (List.mem_cons_self _ _)) hinv)

theorem chunkFinish_floor (cpt : ℚ) (tokenFloor : ℕ) (st : ChunkState)
    (hinv : ChunkFloorInv cpt tokenFloor st) :
    ∀ c ∈ (chunkFinish cpt tokenFloor st).dropLast,
      (tokenFloor : ℚ) ≤ estTokens cpt c := by
  intro c hc
  unfold chunkFinish at hc
  by_cases hemp : st.cur.isEmpty
  · rw [if_pos hemp] at hc
    exact hinv.1 c ((List.dropLast_sublist st.chunks).subset hc)
  · rw [if_neg hemp] at hc
    by_cases hmerge : ¬st.chunks.isEmpty ∧
        ((joinSp st.cur).length : ℚ) / cpt < (tokenFloor : ℚ)
    · rw [if_pos hmerge, List.dropLast_concat] at hc
      exact hinv.1 c ((List.dropLast_sublist st.chunks).subset hc)
    · rw [if_neg hmerge, List.dropLast_concat] at hc
      exact hinv.1 c hc

end TTS

namespace Queue

theorem find?_id_cons_pos (tl : List Job) (a : Job) (id : ℕ)
    (h : (a.id == id) = true) :
    (a :: tl).find? (fun j => j.id == id) = some a :=
  List.find?_cons_of_pos tl h

theorem find?_id_cons_neg (tl : List Job) (a : Job) (id : ℕ)
    (h : ¬(a.id == id) = true) :
    (a :: tl).find? (fun j => j.id == id) = tl.find? (fun j => j.id == id) :=
  List.find?_cons_of_neg tl h

theorem find?_map_ite (db : List Job) (id : ℕ) (g : Job → Job)
    (hg : ∀ a, (g a).id = a.id) :
    (db.map fun j' => if j'.id == id then g j' else j').find? (fun j => j.id == id) =
      (db.find? (fun j => j.id == id)).map g := by
  induction db with
  | nil => simp
  | cons a tl ih =>
    by_cases ha : (a.id == id) = true
    · have hga : ((g a).id == id) = true := by rw [hg a]; exact ha
      have hhead : List.map (fun j' => if j'.id == id then g j' else j') (a :: tl) =
          g a :: List.map (fun j' => if j'.id == id then g j' else j') tl := by
        simp only [List.map_cons, if_pos ha]
      rw [hhead, find?_id_cons_pos _ _ _ hga, find?_id_cons_pos _ _ _ ha]
      rfl
    · have hhead : List.map (fun j' => if j'.id == id then g j' else j') (a :: tl) =
          a :: List.map (fun j' => if j'.id == id then g j' else j') tl := by
        simp only [List.map_cons, if_neg ha]
      rw [hhead, find?_id_cons_neg _ _ _ ha, find?_id_cons_neg _ _ _ ha]
      exact ih

end Queue

namespace Claims

/-- C2 (counterexample): with the file present and non-empty but a probed
chapter count of 2 against an expected count of 3, `validate` returns a
`ValidationResult` instead of failing — refuting the claim that it fails
with `M4BBuildError` on a chapter-count mismatch and returns only when the
counts agree. -/
theorem C2_counterexample :
    M4B.validate true 1000 2 5000 ['a'] 3 =
      Except.ok ⟨['a'], 1000, 5000, 2, 3⟩ ∧ (2 : ℕ) ≠ 3 :=
  ⟨rfl, by decide⟩

/-- C2 (amended): `M4BBuilder.validate` fails with `M4BBuildError` exactly
when the output file is missing or empty; otherwise it returns the
`ValidationResult` carrying both the probed and the expected chapter
counts, without comparing them. -/
theorem C2_amended (fe : Bool) (size probed : ℕ) (dur : ℤ) (path : List Char)
    (expected : ℕ) :
    (fe = false ∨ size = 0 →
      M4B.validate fe size probed dur path expected = .error .fileMissingOrEmpty) ∧
    (fe = true → size ≠ 0 →
      M4B.validate fe size probed dur path expected =
        .ok ⟨path, size, dur, probed, expected⟩) := by
  constructor
  · intro h
    unfold M4B.validate
    rcases h with h | h
    · subst h
      simp
    · subst h
      simp
  · intro h1 h2
    unfold M4B.validate
    subst h1
    simp [h2]

/-- C2 (witness): a present, 7-byte file probing 1 chapter against an
expectation of 2 validates successfully. -/
theorem C2_amended_witness :
    M4B.validate true 7 1 0 ['p'] 2 = Except.ok ⟨['p'], 7, 0, 1, 2⟩ :=
  (C2_amended true 7 1 0 ['p'] 2).2 rfl (by decide)

/-- C3: in the ffmetadata written by `M4BBuilder.build`, the i-th
`[CHAPTER]` block carries `TIMEBASE=1/1000`, `START` equal to the sum of the
durations of the preceding chapters, and `END = START + duration_i`; the
last block's `END` is the total duration. -/
theorem C3_chapter_offsets (chs : List (List Char × ℕ)) :
    (∀ (i : ℕ) (t : List Char) (d : ℕ), chs[i]? = some (t, d) →
      (M4B.chapterBlocks chs)[i]? =
        some ⟨1, 1000, M4B.durPrefixSum chs i, M4B.durPrefixSum chs i + d, t⟩) ∧
    (chs ≠ [] →
      (M4B.chapterBlocks chs).getLast?.map M4B.ChapterBlock.stop =
        some ((chs.map Prod.snd).sum)) := by
  constructor
  · intro i t d h
    have := M4B.chapterBlocksAux_get? 0 chs i t d h
    simpa [M4B.chapterBlocks] using this
  · intro h
    have := M4B.chapterBlocksAux_last 0 chs h
    simpa [M4B.chapterBlocks] using this

/-- C3 (witness): for chapters of 10 ms and 20 ms, the second block starts
at 10 and ends at 30. -/
theorem C3_chapter_offsets_witness :
    (M4B.chapterBlocks [(['a'], 10), (['b'], 20)])[1]? =
      some ⟨1, 1000, 10, 10 + 20, ['b']⟩ := by
  have h := (C3_chapter_offsets [(['a'], 10), (['b'], 20)]).1 1 ['b'] 20 (by decide)
  have hsum : M4B.durPrefixSum [(['a'], 10), (['b'], 20)] 1 = 10 := by decide
  rw [h, hsum]

/-- C7: `synthesize_chapter` is idempotent per output file — when
`out_path` exists the call returns it with zero synthesis requests and an
unchanged filesystem, and a second invocation with the same `out_path`
always returns the same file with zero requests. -/
theorem C7_synthesize_idempotent (fs : List Char → Bool) (out title : List Char)
    (sentences : List (List Char)) (limit : ℕ) (cpt : ℚ) (tokenFloor : ℕ) :
    (fs out = true →
      TTS.synthesizeRun fs out title sentences limit cpt tokenFloor = (out, 0, fs)) ∧
    TTS.synthesizeRun (TTS.synthesizeRun fs out title sentences limit cpt tokenFloor).2.2
        out title sentences limit cpt tokenFloor =
      (out, 0, (TTS.synthesizeRun fs out title sentences limit cpt tokenFloor).2.2) := by
  constructor
  · intro h
    simp [TTS.synthesizeRun, h]
  · by_cases h : fs out = true
    · simp [TTS.synthesizeRun, h]
    · simp [TTS.synthesizeRun, h]

/-- C7 (witness): with file `p` already on disk, the call returns it
directly, issuing no requests. -/
theorem C7_synthesize_idempotent_witness :
    TTS.synthesizeRun (fun _ => true) ['p'] [] [] 250 (7 / 2) 80 =
      (['p'], 0, fun _ => true) :=
  (C7_synthesize_idempotent (fun _ => true) ['p'] [] [] 250 (7 / 2) 80).1 rfl

/-- C10: with `out_path` absent, the chunk list is non-empty (the spoken
title is unconditionally prepended to the Chunker output), so when every
chunk request succeeds the zero-segments `TTSSynthesisError` branch is
unreachable and synthesis returns the output path. -/
theorem C10_no_zero_segments {α : Type} (fs : List Char → Bool)
    (out title : List Char) (sentences : List (List Char)) (limit : ℕ)
    (cpt : ℚ) (tokenFloor : ℕ) (req : List Char → α) (h : fs out = false) :
    TTS.buildChunks title sentences limit cpt tokenFloor ≠ [] ∧
    TTS.synthesize_chapter fs out title sentences limit cpt tokenFloor req =
      .ok out := by
  constructor
  · simp [TTS.buildChunks]
  · simp [TTS.synthesize_chapter, h, TTS.buildChunks]

/-- C10 (witness): a chapter with empty title and no sentences still yields
one chunk and a successful synthesis. -/
theorem C10_no_zero_segments_witness :
    TTS.buildChunks [] [] 250 (7 / 2) 80 ≠ [] ∧
    TTS.synthesize_chapter (fun _ => false) ['p'] [] [] 250 (7 / 2) 80
      (fun _ => (0 : ℕ)) = .ok ['p'] :=
  C10_no_zero_segments (fun _ => false) ['p'] [] [] 250 (7 / 2) 80
    (fun _ => (0 : ℕ)) rfl

/-- C1 (counterexample): a 1-character sentence followed by an 875-character
sentence (estimate exactly 250 tokens) is accumulated into a single chunk —
the sub-floor accumulator may not flush — whose estimate 877/3.5 ≈ 250.57
exceeds the default limit of 250. -/
theorem C1_counterexample :
    ∃ c ∈ TTS.chunk_text [['a'], List.replicate 875 'a'] 250 (7 / 2) 80,
      (250 : ℚ) < TTS.estTokens (7 / 2) c := by
  have heval : TTS.chunk_text [['a'], List.replicate 875 'a'] 250 (7 / 2) 80 =
      [['a'] ++ ' ' :: List.replicate 875 'a'] := by
    unfold TTS.chunk_text
    rw [List.foldl_cons, List.foldl_cons, List.foldl_nil]
    norm_num [TTS.chunkStep, TTS.chunkFinish, Narrator.joinSp]
  rw [heval]
  refine ⟨['a'] ++ ' ' :: List.replicate 875 'a', List.mem_singleton.mpr rfl, ?_⟩
  norm_num [TTS.estTokens]

/-- C1 (amended): under the default parameters (and any parameters with
`chars_per_token ≥ 1` and a positive split target), every chunk's estimated
token count is at most `2·limit + 3·floor + 1` — the claimed bound of
`limit` itself fails because join spaces are not counted by the
accumulator, a sub-floor accumulator absorbs a sentence that overflows the
limit, and a sub-floor tail is merged into the previous chunk. -/
theorem C1_amended (sentences : List (List Char)) (limit tokenFloor : ℕ)
    (cpt : ℚ) (hcpt : 1 ≤ cpt) (htar : 1 ≤ TTS.splitTarget (limit : ℚ) cpt)
    (hne : ∀ s ∈ sentences, s ≠ []) :
    ∀ c ∈ TTS.chunk_text sentences limit cpt tokenFloor,
      TTS.estTokens cpt c ≤ 2 * (limit : ℚ) + 3 * (tokenFloor : ℚ) + 1 := by
  have hcpt0 : (0 : ℚ) < cpt := lt_of_lt_of_le zero_lt_one hcpt
  have hlim : (0 : ℚ) ≤ (limit : ℚ) := Nat.cast_nonneg _
  have hinv0 : TTS.ChunkInv (limit : ℚ) cpt tokenFloor ⟨[], [], 0⟩ := by
    refine ⟨by simp, ?_, by simp [Narrator.charSum], by simp⟩
    simp only [Narrator.charSum, List.map_nil, List.sum_nil, Nat.cast_zero]
    have h1 : (0 : ℚ) ≤ (limit : ℚ) * cpt := mul_nonneg hlim hcpt0.le
    have h2 : (0 : ℚ) ≤ (tokenFloor : ℚ) * cpt :=
      mul_nonneg (Nat.cast_nonneg _) hcpt0.le
    linarith
  have hfold := TTS.chunkFold_inv (limit : ℚ) cpt tokenFloor hcpt0 hlim htar
    sentences ⟨[], [], 0⟩ hne hinv0
  intro c hc
  have hlen := TTS.chunkFinish_bound (limit : ℚ) cpt tokenFloor hcpt0 hlim _
    hfold c hc
  unfold TTS.estTokens
  rw [div_le_iff₀ hcpt0]
  nlinarith [hlen, hcpt]

/-- C1 (witness): two short sentences chunk into the single chunk
`"hi yo"`, whose estimate respects the amended bound at the defaults. -/
theorem C1_amended_witness :
    TTS.estTokens (7 / 2) ['h', 'i', ' ', 'y', 'o'] ≤
      2 * ((250 : ℕ) : ℚ) + 3 * ((80 : ℕ) : ℚ) + 1 :=
  C1_amended [['h', 'i'], ['y', 'o']] 250 80 (7 / 2) (by norm_num)
    (by norm_num [TTS.splitTarget, Int.toNat_ofNat]) (by decide)
    ['h', 'i', ' ', 'y', 'o'] (by
      have heval : TTS.chunk_text [['h', 'i'], ['y', 'o']] 250 (7 / 2) 80 =
          [['h', 'i', ' ', 'y', 'o']] := by
        unfold TTS.chunk_text
        rw [List.foldl_cons, List.foldl_cons, List.foldl_nil]
        norm_num [TTS.chunkStep, TTS.chunkFinish, Narrator.joinSp]
      rw [heval]
      exact List.mem_singleton.mpr rfl)

/-- C4 (counterexample): a 1-character sentence followed by an
876-character sentence (estimate above the limit) makes the loop flush the
tiny accumulator ahead of the oversized-sentence split, emitting a
non-final chunk `"a"` with estimate 2/7 — far below the default floor of
80. -/
theorem C4_counterexample :
    ∃ c ∈ (TTS.chunk_text [['a'], List.replicate 876 'a'] 250 (7 / 2) 80).dropLast,
      TTS.estTokens (7 / 2) c < 80 := by
  have heval : TTS.chunk_text [['a'], List.replicate 876 'a'] 250 (7 / 2) 80 =
      ['a'] :: TTS.splitLongSentence (List.replicate 876 'a') 250 (7 / 2) := by
    unfold TTS.chunk_text
    rw [List.foldl_cons, List.foldl_cons, List.foldl_nil]
    norm_num [TTS.chunkStep, TTS.chunkFinish, Narrator.joinSp]
  have hsplit : TTS.splitLongSentence (List.replicate 876 'a') 250 (7 / 2) ≠ [] :=
    TTS.splitLongSentence_ne_nil _ _ _ (by norm_num)
  rw [heval]
  obtain ⟨x, xs, hxs⟩ := List.exists_cons_of_ne_nil hsplit
  rw [hxs]
  refine ⟨['a'], ?_, ?_⟩
  · simp [List.dropLast]
  · norm_num [TTS.estTokens]

/-- C4 (amended): provided no single sentence's estimate exceeds `limit`
(so the oversized-sentence path is never taken), every chunk except
possibly the last has an estimated token count of at least `floor`. -/
theorem C4_amended (sentences : List (List Char)) (limit tokenFloor : ℕ)
    (cpt : ℚ) (hcpt : 0 < cpt)
    (hsmall : ∀ s ∈ sentences, TTS.estTokens cpt s ≤ (limit : ℚ)) :
    ∀ c ∈ (TTS.chunk_text sentences limit cpt tokenFloor).dropLast,
      (tokenFloor : ℚ) ≤ TTS.estTokens cpt c := by
  have hsmall' : ∀ s ∈ sentences, ¬((s.length : ℚ) / cpt > (limit : ℚ)) :=
    fun s hs => not_lt.mpr (hsmall s hs)
  have hinv0 : TTS.ChunkFloorInv cpt tokenFloor ⟨[], [], 0⟩ :=
    ⟨by simp, by simp [Narrator.charSum]⟩
  exact TTS.chunkFinish_floor cpt tokenFloor _
    (TTS.chunkFold_floor_inv (limit : ℚ) cpt tokenFloor hcpt sentences
      ⟨[], [], 0⟩ hsmall' hinv0)

/-- C4 (witness): sentences of 300 and 600 characters produce two chunks;
the non-final one estimates 600/7 ≈ 85.7 ≥ 80. -/
theorem C4_amended_witness :
    ((80 : ℕ) : ℚ) ≤ TTS.estTokens (7 / 2) (List.replicate 300 'a') :=
  C4_amended [List.replicate 300 'a', List.replicate 600 'a'] 250 80 (7 / 2)
    (by norm_num) (by norm_num [TTS.estTokens]) (List.replicate 300 'a') (by
      have heval : TTS.chunk_text [List.replicate 300 'a', List.replicate 600 'a']
          250 (7 / 2) 80 = [List.replicate 300 'a', List.replicate 600 'a'] := by
        unfold TTS.chunk_text
        rw [List.foldl_cons, List.foldl_cons, List.foldl_nil]
        norm_num [TTS.chunkStep, TTS.chunkFinish, Narrator.joinSp]
      rw [heval]
      rw [show ([List.replicate 300 'a', List.replicate 600 'a'] :
          List (List Char)).dropLast = [List.replicate 300 'a'] from rfl]
      exact List.mem_singleton.mpr rfl)

/-- C5: whenever the extraction post-filter succeeds, every returned
chapter has `word_count ≥ MIN_CHAPTER_WORDS` and a non-empty title-stripped
text, and it fails with `EpubExtractionError` exactly when no detected
chapter passed the filters — for any skip predicate and any cascade
output. -/
theorem C5_postfilter (skippable : List Char → List Char → Bool)
    (detected : List (List Char × List Char)) :
    (∀ chs, Epub.extractFilter skippable detected = .ok chs →
      ∀ ch ∈ chs, Epub.MIN_CHAPTER_WORDS ≤ ch.word_count ∧ ch.text ≠ []) ∧
    (Epub.extractFilter skippable detected = .error .noChapters ↔
      Epub.postFilter skippable detected = []) := by
  constructor
  · intro chs hok ch hch
    unfold Epub.extractFilter at hok
    by_cases hemp : (Epub.postFilter skippable detected).isEmpty
    · rw [if_pos hemp] at hok
      exact absurd hok (by simp)
    · rw [if_neg hemp] at hok
      simp only [Except.ok.injEq] at hok
      subst hok
      unfold Epub.postFilter at hch
      obtain ⟨p, hp, hfp⟩ := List.mem_filterMap.mp hch
      by_cases h1 : (Narrator.pyWords (Epub.strip_title_from_text p.1 p.2)).length <
          Epub.MIN_CHAPTER_WORDS
      · rw [if_pos h1] at hfp
        exact absurd hfp (by simp)
      · rw [if_neg h1] at hfp
        by_cases h2 : skippable p.1 (Epub.strip_title_from_text p.1 p.2) = true
        · rw [if_pos h2] at hfp
          exact absurd hfp (by simp)
        · rw [if_neg h2] at hfp
          simp only [Option.some.injEq] at hfp
          subst hfp
          refine ⟨not_lt.mp h1, ?_⟩
          intro hnil
          have hnil' : Epub.strip_title_from_text p.1 p.2 = [] := hnil
          have h3 := not_lt.mp h1
          rw [hnil'] at h3
          simp [Narrator.pyWords, Epub.MIN_CHAPTER_WORDS] at h3
  · unfold Epub.extractFilter
    by_cases hemp : (Epub.postFilter skippable detected).isEmpty
    · rw [if_pos hemp]
      simp only [List.isEmpty_iff] at hemp
      simp [hemp]
    · rw [if_neg hemp]
      constructor
      · intro h
        exact absurd h (by simp)
      · intro h
        rw [h] at hemp
        simp at hemp

/-- C5 (witness): a 50-word chapter with empty title survives the filter
with `word_count = 50` and non-empty text. -/
theorem C5_postfilter_witness :
    Epub.MIN_CHAPTER_WORDS ≤ (⟨[], fiftyWords, 50⟩ : Epub.Chapter).word_count ∧
      (⟨[], fiftyWords, 50⟩ : Epub.Chapter).text ≠ [] := by
  have hstrip : Epub.strip_title_from_text [] fiftyWords = fiftyWords := by decide
  have hlen : (Narrator.pyWords fiftyWords).length = 50 := by decide
  have hpf : Epub.postFilter (fun _ _ => false) [([], fiftyWords)] =
      [⟨[], fiftyWords, 50⟩] := by
    unfold Epub.postFilter
    simp only [List.filterMap_cons, List.filterMap_nil]
    rw [hstrip, hlen]
    norm_num [Epub.MIN_CHAPTER_WORDS]
  have hok : Epub.extractFilter (fun _ _ => false) [([], fiftyWords)] =
      .ok [⟨[], fiftyWords, 50⟩] := by
    unfold Epub.extractFilter
    rw [hpf]
    simp
  exact (C5_postfilter (fun _ _ => false) [([], fiftyWords)]).1
    [⟨[], fiftyWords, 50⟩] hok ⟨[], fiftyWords, 50⟩ (List.mem_singleton.mpr rfl)

/-- C6: cancelling a non-terminal job marks it failed with error message
"Cancelled by user" and a completion time, cancelling a terminal job is a
no-op, and a subsequent retry returns the job to pending with progress,
error and timestamps cleared and queue position one past the maximum
pending position. -/
theorem C6_cancel_retry (db : List Queue.Job) (id now : ℕ) (j : Queue.Job)
    (hfind : Queue.get_job db id = .ok j) :
    (Queue.isTerminal j.status = true → Queue.cancel_job db id now = .ok db) ∧
    (Queue.isTerminal j.status = false →
      ∃ db1 db2,
        Queue.cancel_job db id now = .ok db1 ∧
        Queue.get_job db1 id = .ok { j with
          status := .failed,
          error_message := some Queue.cancelledMsg,
          completed_at := some now } ∧
        Queue.retry_job db1 id = .ok db2 ∧
        Queue.get_job db2 id = .ok { j with
          status := .pending,
          chapters_done := 0,
          error_message := none,
          started_at := none,
          completed_at := none,
          queue_position := some (Queue.maxPendingPos db1 + 1) }) := by
  have hmatch : db.find? (fun x => x.id == id) = some j := by
    unfold Queue.get_job at hfind
    cases hdb : db.find? (fun x => x.id == id) with
    | none =>
      rw [hdb] at hfind
      exact absurd hfind (by simp)
    | some a =>
      rw [hdb] at hfind
      simp only [Except.ok.injEq] at hfind
      rw [hfind]
  constructor
  · intro hterm
    unfold Queue.cancel_job
    rw [hmatch]
    simp [hterm]
  · intro hterm
    have hup : ∀ a : Queue.Job, (Queue.cancelUpd now a).id = a.id := fun a => rfl
    have h1 : Queue.cancel_job db id now =
        .ok (db.map fun j' => if j'.id == id then Queue.cancelUpd now j' else j') := by
      unfold Queue.cancel_job
      rw [hmatch]
      simp [hterm]
    set db1 := db.map (fun j' => if j'.id == id then Queue.cancelUpd now j' else j')
      with hdb1
    have hfind1 : db1.find? (fun x => x.id == id) = some (Queue.cancelUpd now j) := by
      rw [hdb1, Queue.find?_map_ite db id _ hup, hmatch]
      rfl
    have h2 : Queue.get_job db1 id = .ok (Queue.cancelUpd now j) := by
      unfold Queue.get_job
      rw [hfind1]
    have hup2 : ∀ a : Queue.Job,
        (Queue.retryUpd (Queue.maxPendingPos db1 + 1) a).id = a.id := fun a => rfl
    have hretry : Queue.retry_job db1 id = .ok (db1.map fun j' =>
        if j'.id == id then Queue.retryUpd (Queue.maxPendingPos db1 + 1) j'
        else j') := by
      unfold Queue.retry_job
      rw [hfind1]
      simp [Queue.cancelUpd]
    have hfind2 : (db1.map fun j' =>
        if j'.id == id then Queue.retryUpd (Queue.maxPendingPos db1 + 1) j'
        else j').find? (fun x => x.id == id) =
          some (Queue.retryUpd (Queue.maxPendingPos db1 + 1)
            (Queue.cancelUpd now j)) := by
      rw [Queue.find?_map_ite db1 id _ hup2, hfind1]
      rfl
    refine ⟨db1, _, h1, ?_, hretry, ?_⟩
    · rw [h2]
      rfl
    · unfold Queue.get_job
      rw [hfind2]
      rfl

/-- C6 (witness): on a queue holding an extracting job 1 and a pending job
at position 4, cancel then retry job 1 lands it pending at position 5. -/
theorem C6_cancel_retry_witness :
    ∃ db1 db2,
      Queue.cancel_job [exJobA, exJobB] 1 99 = .ok db1 ∧
      Queue.get_job db1 1 = .ok { exJobA with
        status := .failed,
        error_message := some Queue.cancelledMsg,
        completed_at := some 99 } ∧
      Queue.retry_job db1 1 = .ok db2 ∧
      Queue.get_job db2 1 = .ok { exJobA with
        status := .pending,
        chapters_done := 0,
        error_message := none,
        started_at := none,
        completed_at := none,
        queue_position := some (Queue.maxPendingPos db1 + 1) } :=
  (C6_cancel_retry [exJobA, exJobB] 1 99 exJobA rfl).2 rfl

/-- C8 (counterexample): a body of 20 non-empty lines of which exactly 6
are chapter-like meets the claim's condition (≥ 5 lines, ≥ 4 matches,
ratio 6/20 ≥ 0.3) yet is NOT dropped: the code requires the ratio to be
strictly greater than 0.3. -/
theorem C8_counterexample :
    Epub.looks_like_toc tocExample = false ∧
      5 ≤ (Epub.tocLines tocExample).length ∧
      4 ≤ Epub.chapterLikeCount tocExample ∧
      (3 / 10 : ℚ) ≤ (Epub.chapterLikeCount tocExample : ℚ) /
        ((Epub.tocLines tocExample).length : ℚ) := by
  have h1 : (Epub.tocLines tocExample).length = 20 := by decide
  have h2 : Epub.chapterLikeCount tocExample = 6 := by decide
  refine ⟨?_, by rw [h1]; norm_num, by rw [h2]; norm_num, by rw [h1, h2]; norm_num⟩
  unfold Epub.looks_like_toc
  rw [h1, h2, if_neg (by norm_num)]
  simp only [decide_eq_false_iff_not]
  intro hcon
  have := hcon.2
  norm_num at this

/-- C8 (amended): a chapter body is dropped as TOC-like exactly when it has
at least 5 non-empty lines, at least 4 of them match the chapter-like
prefix pattern, and the fraction of matching lines is strictly greater
than 0.3 (the boundary ratio 0.3 itself is kept). -/
theorem C8_amended (text : List Char) :
    Epub.looks_like_toc text = true ↔
      (5 ≤ (Epub.tocLines text).length ∧ 4 ≤ Epub.chapterLikeCount text ∧
        (3 / 10 : ℚ) < (Epub.chapterLikeCount text : ℚ) /
          ((Epub.tocLines text).length : ℚ)) := by
  unfold Epub.looks_like_toc
  by_cases h : (Epub.tocLines text).length < 5
  · rw [if_pos h]
    simp only [Bool.false_eq_true, false_iff]
    rintro ⟨h5, -, -⟩
    omega
  · rw [if_neg h]
    rw [decide_eq_true_eq]
    constructor
    · rintro ⟨h4, hr⟩
      exact ⟨by omega, h4, hr⟩
    · rintro ⟨h5, h4, hr⟩
      exact ⟨h4, hr⟩

/-- C8 (witness): a 20-line body with 7 chapter-like lines (ratio 0.35 >
0.3) is dropped as TOC-like. -/
theorem C8_amended_witness : Epub.looks_like_toc tocExampleDropped = true := by
  have h1 : (Epub.tocLines tocExampleDropped).length = 20 := by decide
  have h2 : Epub.chapterLikeCount tocExampleDropped = 7 := by decide
  exact (C8_amended tocExampleDropped).mpr
    ⟨by rw [h1]; norm_num, by rw [h2]; norm_num, by rw [h1, h2]; norm_num⟩

/-- C9 (counterexample): with title `"a"` and body `"a b "` the code stores
`"b"` — Python `str.strip()` removes the trailing whitespace as well — while
the claim's description (title occurrence removed, leading whitespace
stripped) predicts `"b "`. -/
theorem C9_counterexample :
    Epub.strip_title_from_text ['a'] ['a', ' ', 'b', ' '] = ['b'] ∧
      (['b'] : List Char) ≠ ['b', ' '] := by
  decide

/-- C9 (amended): when the title's words are non-empty and the first
`len(title_words)` word tokens of the first `3·len(title)` characters of
the body match the title case-insensitively, the stored text is the body
after the matched occurrence with surrounding whitespace stripped from BOTH
ends; otherwise the body is returned unchanged. -/
theorem C9_amended (title text : List Char) :
    (Epub.titleWords title ≠ [] → Epub.titleOpeningMatches title text = true →
      Epub.strip_title_from_text title text =
        Narrator.pyStrip (text.drop (Epub.titleMatchEnd title text))) ∧
    (Epub.titleWords title = [] ∨ Epub.titleOpeningMatches title text = false →
      Epub.strip_title_from_text title text = text) := by
  constructor
  · intro h1 h2
    unfold Epub.strip_title_from_text
    rw [if_neg (by simp [List.isEmpty_iff, h1]), if_pos h2]
  · intro h
    unfold Epub.strip_title_from_text
    rcases h with h | h
    · rw [if_pos (by simp [List.isEmpty_iff, h])]
    · by_cases he : (Epub.titleWords title).isEmpty
      · rw [if_pos he]
      · rw [if_neg he, if_neg (by simp [h])]

/-- C9 (witness): the spec's own example — title `"Chapter 1"`, body
beginning `"Chapter 1\nIt was …"` — stores the text starting at
`"It was …"`. -/
theorem C9_amended_witness :
    Epub.strip_title_from_text ("Chapter 1".toList)
        ("Chapter 1\nIt was a dark night.".toList) =
      "It was a dark night.".toList := by
  have h := (C9_amended ("Chapter 1".toList)
    ("Chapter 1\nIt was a dark night.".toList)).1 (by decide) (by decide)
  rw [h]
  decide

end Claims
